import Mathlib

/-!
# ART: register allocator interface and `java.lang.reflect.Executable` natives

A shallow embedding of

* `runtime/native/java_lang_reflect_Executable.cc`
  (`Executable_getParameterAnnotationsNative`, `Executable_getParameters0`), and
* `compiler/optimizing/register_allocator.h` (the `RegisterAllocator` interface).

Machine integers are mathematical integers with explicit 32-bit wrapping (`toInt32`).
Unchecked array accesses (`GetWithoutChecks`, `SetWithoutChecks`) and `DCHECK`s are
embedded as checked operations that raise a `Fault`, so that "the access is in bounds" and
"the assertion holds" become "the run does not end in a fault".
-/

set_option autoImplicit false
set_option linter.unusedVariables false

namespace Art

/-! ## Machine integers, faults, object arrays -/

/-- Value of an integer after conversion to `int32_t` (two's complement wrap-around). -/
def toInt32 (x : Int) : Int := (x + 2 ^ 31) % 2 ^ 32 - 2 ^ 31

/-- Ways in which a checked run can go wrong: an unchecked array access outside the array,
or a `DCHECK` whose condition is false. -/
inductive Fault where
  | indexOutOfBounds
  | dcheckFailed
  deriving DecidableEq, Repr

/-- A `mirror::ObjectArray<T>`: a sequence of references, `none` being the null reference. -/
abbrev ObjectArray (α : Type) := List (Option α)

/-- The accessor `ObjectArray::GetLength()`. -/
def GetLength {α : Type} (a : ObjectArray α) : Int := (a.length : Int)

/-- The read `ObjectArray::GetWithoutChecks(i)`, with the bounds check that the C++ omits
made explicit. -/
def GetWithoutChecks {α : Type} (a : ObjectArray α) (i : Int) : Except Fault (Option α) :=
  if 0 ≤ i ∧ i < GetLength a then .ok (a.getD i.toNat none) else .error .indexOutOfBounds

/-- The write `ObjectArray::SetWithoutChecks(i, v)`, with the bounds check that the C++ omits
made explicit. -/
def SetWithoutChecks {α : Type} (a : ObjectArray α) (i : Int) (v : Option α) :
    Except Fault (ObjectArray α) :=
  if 0 ≤ i ∧ i < GetLength a then .ok (a.set i.toNat v) else .error .indexOutOfBounds

/-- The allocation `ObjectArray::Alloc(self, klass, length)`: a fresh array of `length` null
references, or null (with an exception pending) when the heap cannot serve the request
(`heapOk = false`) or the length is negative. -/
def Alloc {α : Type} (heapOk : Bool) (length : Int) : Option (ObjectArray α) :=
  if heapOk = true ∧ 0 ≤ length then some (List.replicate length.toNat none) else none

/-- The loop `for (int i = lo; i < lo + count; ++i) body(i)` over a state `σ`, stopping at the
first fault. `count` is the number of iterations left. -/
def forInt {σ : Type} (body : Int → σ → Except Fault σ) :
    Nat → Int → σ → Except Fault σ
  | 0, _, s => .ok s
  | k + 1, i, s =>
    match body i s with
    | .error e => .error e
    | .ok s' => forInt body k (i + 1) s'

/-! ## `Executable_getParameterAnnotationsNative` -/

/-- What a native method hands back to Java: an array, plain null, or null with an
exception pending on the thread. -/
inductive NativeResult (α : Type) where
  | value (a : ObjectArray α)
  | null
  | nullExceptionPending
  deriving DecidableEq, Repr

/-- The facts about the reflected method that `Executable_getParameterAnnotationsNative`
reads. -/
structure ArtMethod (α : Type) where
  /-- Result of `method->IsProxyMethod()`. -/
  IsProxyMethod : Bool
  /-- Result of `method->IsConstructor()`. -/
  IsConstructor : Bool
  /-- Result of `method->GetNumberOfParameters()` (a `size_t`). -/
  GetNumberOfParameters : Nat
  /-- Result of `annotations::GetParameterAnnotations(method)`; `none` is a null handle. -/
  GetParameterAnnotations : Option (ObjectArray α)
  /-- Whether `annotations::GetEnclosingMethod(declaring_class) != nullptr` (a local class). -/
  HasEnclosingMethod : Bool
  /-- Result of `declaring_class->IsEnum()`. -/
  IsEnum : Bool

/-- The state of the runtime that the native reads: whether each of the two allocations
succeeds, and the object that the allocation of the zero-length `Annotation[]` yields. -/
structure Heap (α : Type) where
  resizedAllocOk : Bool
  emptyAllocOk : Bool
  emptyAnnotations : α

/-- The first loop of the `offset > 0` branch: `resized[i] = empty` for `0 ≤ i < offset`. -/
def padLoop {α : Type} (offset : Int) (empty : α) (resized : ObjectArray α) :
    Except Fault (ObjectArray α) :=
  forInt (fun i r => SetWithoutChecks r i (some empty)) offset.toNat 0 resized

/-- The second loop of the `offset > 0` branch: `resized[i + offset] = annotations[i]` for
`0 ≤ i < annotations->GetLength()`. -/
def shiftLoop {α : Type} (offset : Int) (annotations resized : ObjectArray α) :
    Except Fault (ObjectArray α) :=
  forInt
    (fun i r =>
      match GetWithoutChecks annotations i with
      | .error e => .error e
      | .ok annotation => SetWithoutChecks r (toInt32 (i + offset)) annotation)
    (GetLength annotations).toNat 0 resized

/-- The loop of the `else` branch: `resized[i] = annotations[i - offset]` for
`0 ≤ i < resized->GetLength()`. -/
def dropLoop {α : Type} (offset : Int) (annotations resized : ObjectArray α) :
    Except Fault (ObjectArray α) :=
  forInt
    (fun i r =>
      match GetWithoutChecks annotations (toInt32 (i - offset)) with
      | .error e => .error e
      | .ok annotation => SetWithoutChecks r i annotation)
    (GetLength resized).toNat 0 resized

/-- The resize path (source lines 125-154): everything after `resized_annotations` has been
allocated. -/
def resizeAnnotations {α : Type} (heap : Heap α) (annotations resized : ObjectArray α) :
    Except Fault (NativeResult α) :=
  let offset := toInt32 (GetLength resized - GetLength annotations)
  if offset > 0 then
    if heap.emptyAllocOk = true then
      match padLoop offset heap.emptyAnnotations resized with
      | .error e => .error e
      | .ok padded =>
        match shiftLoop offset annotations padded with
        | .error e => .error e
        | .ok filled => .ok (.value filled)
    else .ok .nullExceptionPending
  else
    if offset < 0 then
      match dropLoop offset annotations resized with
      | .error e => .error e
      | .ok filled => .ok (.value filled)
    else .error .dcheckFailed

/-- The native `Executable_getParameterAnnotationsNative` (source lines 80-155). -/
def Executable_getParameterAnnotationsNative {α : Type} (heap : Heap α) (method : ArtMethod α) :
    Except Fault (NativeResult α) :=
  if method.IsProxyMethod = true then .ok .null
  else
    match method.GetParameterAnnotations with
    | none => .ok .null
    | some annotations =>
      if method.IsConstructor = false ∨
          GetLength annotations = toInt32 (method.GetNumberOfParameters : Int) then
        .ok (.value annotations)
      else if method.HasEnclosingMethod = true ∨ method.IsEnum = true then
        .ok (.value annotations)
      else
        match Alloc heap.resizedAllocOk (toInt32 (method.GetNumberOfParameters : Int)) with
        | none => .ok .nullExceptionPending
        | some resized => resizeAnnotations heap annotations resized

/-! ## `Executable_getParameters0` -/

/-- The two `ThrowIllegalArgumentException` calls of `Executable_getParameters0`, with the
numbers that go into the message. -/
inductive IllegalArgument where
  /-- Message "Missing parameter metadata for names or access flags for %s". -/
  | missingMetadata
  /-- Message "Inconsistent parameter metadata for %s. names length: %d, access flags
  length: %d". -/
  | inconsistentMetadata (names_count access_flags_count : Int)
  deriving DecidableEq, Repr

/-- A `java.lang.reflect.Parameter` built by `Parameter.<init>(name, modifiers, executable,
index)`. -/
structure Parameter where
  name : Option String
  modifiers : Int
  index : Int
  deriving DecidableEq, Repr

/-- The facts that `Executable_getParameters0` reads. -/
structure Executable where
  /-- Result of `art_method->GetDeclaringClass()->IsProxyClass()`. -/
  IsProxyClass : Bool
  /-- Result of `annotations::GetParametersMetadataForMethod(art_method, &names,
  &access_flags)`: `none` when it returns false, else the two handles it filled in (each may
  stay null). -/
  GetParametersMetadataForMethod :
    Option (Option (ObjectArray String) × Option (List Int))
  /-- Whether the allocation of the `Parameter[]` succeeds. -/
  parameterArrayAllocOk : Bool
  /-- The call `parameter_init->NewObject(self, name, modifiers, executable,
  parameter_index)`, which is null (with an exception pending) when it fails. -/
  NewObject : Option String → Int → Int → Option Parameter

/-- How `Executable_getParameters0` ends. -/
inductive Parameters0Result where
  /-- Returns the populated `Parameter[]`. -/
  | value (parameters : ObjectArray Parameter)
  /-- Returns null, nothing thrown. -/
  | null
  /-- Returns null after `ThrowIllegalArgumentException`. -/
  | threwIllegalArgument (e : IllegalArgument)
  /-- Returns null with the exception of a failed allocation or constructor call pending. -/
  | nullExceptionPending
  deriving DecidableEq, Repr

/-- The loop that populates the `Parameter[]`: `count` iterations are left, the next index is
`parameter_index`. The reads `names->Get(i)` and `access_flags->Get(i)` are the checked
accessors; `none` is the early `return nullptr` after a failed `NewObject`. -/
def populateParameters (executable : Executable) (names : ObjectArray String)
    (access_flags : List Int) :
    Nat → Int → ObjectArray Parameter → Except Fault (Option (ObjectArray Parameter))
  | 0, _, parameter_array => .ok (some parameter_array)
  | count + 1, parameter_index, parameter_array =>
    let name := names.getD parameter_index.toNat none
    let modifiers := access_flags.getD parameter_index.toNat 0
    match executable.NewObject name modifiers parameter_index with
    | none => .ok none
    | some parameter =>
      match SetWithoutChecks parameter_array parameter_index (some parameter) with
      | .error e => .error e
      | .ok parameter_array' =>
        populateParameters executable names access_flags count (parameter_index + 1)
          parameter_array'

/-- The native `Executable_getParameters0` (source lines 157-233). -/
def Executable_getParameters0 (executable : Executable) : Except Fault Parameters0Result :=
  if executable.IsProxyClass = true then .ok .null
  else
    match executable.GetParametersMetadataForMethod with
    | none => .ok .null
    | some (names?, access_flags?) =>
      match names?, access_flags? with
      | some names, some access_flags =>
        let names_count := GetLength names
        let access_flags_count : Int := (access_flags.length : Int)
        if names_count ≠ access_flags_count then
          .ok (.threwIllegalArgument (.inconsistentMetadata names_count access_flags_count))
        else
          match (Alloc executable.parameterArrayAllocOk names_count :
              Option (ObjectArray Parameter)) with
          | none => .ok .nullExceptionPending
          | some parameter_array =>
            match populateParameters executable names access_flags names_count.toNat 0
                parameter_array with
            | .error e => .error e
            | .ok none => .ok .nullExceptionPending
            | .ok (some filled) => .ok (.value filled)
      | _, _ => .ok (.threwIllegalArgument .missingMetadata)

/-! ## `register_allocator.h`: what the header declares -/

/-- The enumeration `RegisterAllocator::Strategy`. -/
inductive Strategy where
  | kRegisterAllocatorLinearScan
  | kRegisterAllocatorGraphColor
  deriving DecidableEq, Repr

/-- The enumeration `RegisterAllocator::RegisterType`. -/
inductive RegisterType where
  | kCoreRegister
  | kFpRegister
  deriving DecidableEq, Repr

/-- The constant `static constexpr Strategy kRegisterAllocatorDefault =
kRegisterAllocatorLinearScan;`. -/
def kRegisterAllocatorDefault : Strategy := .kRegisterAllocatorLinearScan

/-- The value of the parameter `strategy` inside `Create`: the argument the caller wrote, or,
when the caller wrote none, the default argument of the declaration
(`Strategy strategy = kRegisterAllocatorDefault`). -/
def Create.strategy (written : Option Strategy) : Strategy :=
  match written with
  | some s => s
  | none => kRegisterAllocatorDefault

/-- The "cached values calculated from codegen data" that the allocator keeps
(`num_core_registers_`, `num_fp_registers_`, `core_registers_blocked_for_call_`,
`fp_registers_blocked_for_call_`; the two masks are `uint32_t`). -/
structure RegisterConfiguration where
  num_core_registers_ : Nat
  num_fp_registers_ : Nat
  core_registers_blocked_for_call_ : Nat
  fp_registers_blocked_for_call_ : Nat
  deriving DecidableEq, Repr

/-! ## The interval model

The header only forward-declares `LiveInterval`; the types below follow section 3 of the
specification. -/

/-- Modelled from the spec: the class `LiveRange` is not part of the sources at hand. One
contiguous `[start, end)` sub-span of a live interval. -/
structure LiveRange where
  start : Nat
  end_ : Nat
  deriving DecidableEq, Repr

/-- Modelled from the spec: the class `UsePosition` is not part of the sources at hand. A use
position, "tagged with whether it requires a register (vs. tolerating a spill slot) and,
optionally, a required register class". -/
structure UsePosition where
  position : Nat
  requiresRegister : Bool
  registerClass : Option Nat
  deriving DecidableEq, Repr

/-- Modelled from the spec: the class `Location` is only forward-declared. The assigned
location "is either unassigned, a physical register index, or a spill-slot index". -/
inductive Location where
  | unassigned
  | register (index : Nat)
  | spillSlot (index : Nat)
  deriving DecidableEq, Repr

/-- Modelled from the spec: the class `LiveInterval` is only forward-declared. Its attributes
are those of section 3: ranges, uses, register type, location, spill weight and the
parent/sibling links, which are indices into the table of all intervals of the compilation
(section 9). A fixed/fence interval has no virtual-value identity and is "represented as a
bitmask": `blocked` holds the registers it blocks, per register type. -/
structure LiveInterval where
  ranges : List LiveRange
  uses : List UsePosition
  registerType : RegisterType
  location : Location
  spillWeight : Nat
  parent : Nat
  nextSibling : Option Nat
  blocked : Option (RegisterType → Nat)

/-- Modelled from the spec: a live range is a `[start, end)` span; the position lies within
it. -/
def LiveRange.Covers (r : LiveRange) (position : Nat) : Prop :=
  r.start ≤ position ∧ position < r.end_

instance (r : LiveRange) (position : Nat) : Decidable (r.Covers position) := by
  unfold LiveRange.Covers; infer_instance

/-- Modelled from the spec: section 4.1, "query whether a position lies within the
interval's live ranges". -/
def LiveInterval.Covers (interval : LiveInterval) (position : Nat) : Prop :=
  ∃ r ∈ interval.ranges, r.Covers position

instance (interval : LiveInterval) (position : Nat) : Decidable (interval.Covers position) := by
  unfold LiveInterval.Covers; infer_instance

/-- Modelled from the spec: the start of an interval is the start of its first range, if it
has a range. -/
def LiveInterval.GetStart (interval : LiveInterval) : Option Nat :=
  interval.ranges.head?.map (fun r => r.start)

/-- Modelled from the spec: the end of an interval is the end of its last range, if it has a
range. -/
def LiveInterval.GetEnd (interval : LiveInterval) : Option Nat :=
  interval.ranges.getLast?.map (fun r => r.end_)

/-- Modelled from the spec: the invariant of section 3, "ranges within one interval are
sorted, non-overlapping", and the uses are an "ordered list". The ranges of an interval are
non-empty, sorted and non-overlapping, and its uses are ordered by position. -/
structure LiveInterval.WellFormed (interval : LiveInterval) : Prop where
  nonempty : ∀ r ∈ interval.ranges, r.start < r.end_
  sorted : interval.ranges.Pairwise (fun a b => a.end_ ≤ b.start)
  usesOrdered : interval.uses.Pairwise (fun a b => a.position ≤ b.position)

/-! ## The splitter (section 4.4) -/

/-- Modelled from the spec: section 4.4, "partitions the interval's ranges [...] at
`position`". Walking the ordered range list: the ranges ending at or before it stay,
the ranges starting at or after it move, and a range that contains it is cut in two. -/
def splitRanges (position : Nat) : List LiveRange → List LiveRange × List LiveRange
  | [] => ([], [])
  | r :: rest =>
    if r.end_ ≤ position then
      ((r :: (splitRanges position rest).1), (splitRanges position rest).2)
    else if position ≤ r.start then
      ([], r :: rest)
    else
      ([⟨r.start, position⟩], ⟨position, r.end_⟩ :: rest)

/-- Modelled from the spec: section 4.4, "partitions the interval's [...] uses at
`position`". Walking the ordered use list: the leading uses before it stay, the
rest move. -/
def splitUses (position : Nat) : List UsePosition → List UsePosition × List UsePosition
  | [] => ([], [])
  | u :: rest =>
    if u.position < position then
      ((u :: (splitUses position rest).1), (splitUses position rest).2)
    else
      ([], u :: rest)

/-- Modelled from the spec: the body of `RegisterAllocator::Split` is not part of the sources
at hand (the header declares it). Section 4.4: "if `position` equals the interval's start,
returns the same interval with its location cleared; otherwise partitions the interval's
ranges and uses at `position`, producing a new sibling covering `[position, end)` while the
original is truncated to `[start, position)`, and links the two via parent/sibling
pointers". Intervals live in a table and are named by their index; the result is the new
table and the index of the returned interval, or `none` when `interval` names no entry. -/
def Split (table : List LiveInterval) (interval : Nat) (position : Nat) :
    Option (List LiveInterval × Nat) :=
  match table[interval]? with
  | none => none
  | some I =>
    if I.GetStart = some position then
      some (table.set interval { I with location := .unassigned }, interval)
    else
      let sibling : LiveInterval :=
        { I with
          ranges := (splitRanges position I.ranges).2
          uses := (splitUses position I.uses).2
          location := .unassigned }
      let original : LiveInterval :=
        { I with
          ranges := (splitRanges position I.ranges).1
          uses := (splitUses position I.uses).1
          nextSibling := some table.length }
      some (table.set interval original ++ [sibling], table.length)

/-! ## The validator (section 4.5) -/

/-- Modelled from the spec: two `[start, end)` ranges overlap, that is, have a position in
common. -/
def LiveRange.Intersects (a b : LiveRange) : Bool :=
  decide (max a.start b.start < min a.end_ b.end_)

/-- Modelled from the spec: two intervals "have overlapping live ranges". -/
def LiveInterval.Overlaps (a b : LiveInterval) : Bool :=
  a.ranges.any (fun r => b.ranges.any (fun s => r.Intersects s))

/-- Modelled from the spec: two intervals are "assigned the same physical register or the
same spill slot". -/
def Location.SameStorage : Location → Location → Bool
  | .register r, .register s => decide (r = s)
  | .spillSlot r, .spillSlot s => decide (r = s)
  | _, _ => false

/-- Modelled from the spec: the pairwise check of section 4.5 on one pair, same register or
same spill slot, and overlapping ranges. -/
def LiveInterval.ConflictsWith (a b : LiveInterval) : Bool :=
  a.location.SameStorage b.location && a.Overlaps b

/-- Modelled from the spec: the pairwise check of section 4.5 over the whole set; some pair of
distinct entries of the list conflicts. -/
def hasConflict : List LiveInterval → Bool
  | [] => false
  | a :: rest => rest.any (fun b => a.ConflictsWith b) || hasConflict rest

/-- Modelled from the spec: the "fatal, unrecoverable diagnostic" of the validator. -/
inductive Fatal where
  | conflict
  deriving DecidableEq, Repr

/-- Modelled from the spec: the body of `RegisterAllocator::ValidateIntervals` is not part of
the sources at hand (the header declares it). Section 4.5: "checks pairwise that no two
intervals assigned the same physical register or the same spill slot have overlapping live
ranges. On failure, either raises a fatal, unrecoverable diagnostic (when configured to do
so) or returns a boolean failure". The parameters are those of the declaration, except
`liveness`, which "can be null in tests". -/
def ValidateIntervals (intervals : List LiveInterval)
    (number_of_spill_slots number_of_out_slots : Nat) (codegen : RegisterConfiguration)
    (register_type : RegisterType) (log_fatal_on_failure : Bool) : Except Fatal Bool :=
  if hasConflict intervals then
    if log_fatal_on_failure then .error .conflict else .ok false
  else .ok true

/-! ## Register masks (section 4.1) -/

/-- Modelled from the spec: the registers of a register type are `0 .. n - 1` for the
number `n` of registers of that type; as a `uint32_t` mask. -/
def allRegisters (codegen : RegisterConfiguration) (register_type : RegisterType) : Nat :=
  match register_type with
  | .kCoreRegister => (2 ^ codegen.num_core_registers_ - 1) % 2 ^ 32
  | .kFpRegister => (2 ^ codegen.num_fp_registers_ - 1) % 2 ^ 32

/-- Modelled from the spec: the body of `RegisterAllocator::GetRegisterMask` is not part of
the sources at hand. The header: "Get a mask of all registers for an interval. Most intervals
either have or do not have a register, but we're using special fixed intervals [...] to mark
large sets of blocked registers". An interval with a register has that one bit; a fixed
interval has the bits of the registers it blocks; any other interval has none. -/
def GetRegisterMask (interval : LiveInterval) (register_type : RegisterType) : Nat :=
  match interval.location with
  | .register r => (1 <<< r) % 2 ^ 32
  | _ =>
    match interval.blocked with
    | some mask => mask register_type % 2 ^ 32
    | none => 0

/-- Modelled from the spec: the registers blocked at `position`, the union of the masks of the
listed intervals that cover it. -/
def blockedRegisters (fixed : List LiveInterval) (position : Nat)
    (register_type : RegisterType) : Nat :=
  match fixed with
  | [] => 0
  | f :: rest =>
    if f.Covers position then
      GetRegisterMask f register_type ||| blockedRegisters rest position register_type
    else blockedRegisters rest position register_type

/-- Modelled from the spec: section 4.1, "compute the usable register mask (which physical
registers are not blocked) at a position, combining the interval's own constraints with
fixed/fence intervals overlapping that position". The interval's own constraint is its
register type, which selects the register file. -/
def usableRegisterMask (codegen : RegisterConfiguration) (fixed : List LiveInterval)
    (interval : LiveInterval) (position : Nat) : Nat :=
  allRegisters codegen interval.registerType &&&
    (0xFFFFFFFF ^^^ blockedRegisters fixed position interval.registerType)

/-! # Theorems -/

/-! ## Loops over object arrays -/

theorem toInt32_of_range (x : Int) (h0 : -(2 ^ 31) ≤ x) (h1 : x < 2 ^ 31) : toInt32 x = x := by
  unfold toInt32; omega

theorem take_succ_set {α : Type} (r : List α) (w : Nat) (v : α) (hw : w < r.length) :
    (r.set w v).take (w + 1) = r.take w ++ [v] := by
  rw [List.set_eq_take_append_cons_drop, if_pos hw]
  have hlen : (List.take w r).length = w := by simp; omega
  rw [List.take_append_eq_append_take, hlen]
  simp

/-- A loop whose `t`-th iteration stores `vals[t]` at index `w + t` overwrites the
segment `[w, w + k)` of the array with `vals`. -/
theorem forInt_write {α : Type} (body : Int → ObjectArray α → Except Fault (ObjectArray α)) :
    ∀ (k : Nat) (j : Int) (w : Nat) (vals r : ObjectArray α),
      vals.length = k → w + k ≤ r.length →
      (∀ (t : Nat), t < k → ∀ r' : ObjectArray α, r'.length = r.length →
        body (j + (t : Int)) r' = .ok (r'.set (w + t) (vals.getD t none))) →
      forInt body k j r = .ok (r.take w ++ vals ++ r.drop (w + k)) := by
  intro k
  induction k with
  | zero =>
    intro j w vals r hv _ _
    have : vals = [] := List.length_eq_zero.mp hv
    subst this
    simp [forInt]
  | succ k ih =>
    intro j w vals r hv hw hbody
    cases vals with
    | nil => simp at hv
    | cons v vs =>
      have h0 := hbody 0 (Nat.succ_pos k) r rfl
      simp only [Nat.cast_zero, add_zero, List.getD_cons_zero] at h0
      have hstep : forInt body (k + 1) j r = forInt body k (j + 1) (r.set w v) := by
        simp only [forInt, h0]
      rw [hstep]
      have hlen : (r.set w v).length = r.length := List.length_set ..
      rw [ih (j + 1) (w + 1) vs (r.set w v) (by simpa using hv) (by rw [hlen]; omega)]
      · have e1 : (r.set w v).take (w + 1) = r.take w ++ [v] :=
          take_succ_set r w v (by omega)
        have e2 : (r.set w v).drop (w + 1 + k) = r.drop (w + (k + 1)) := by
          rw [List.drop_set_of_lt v r (by omega)]; congr 1; omega
        rw [e1, e2]; simp
      · intro t ht r' hr'
        have := hbody (t + 1) (by omega) r' (by rw [hr', hlen])
        simp only [List.getD_cons_succ] at this
        have e : j + 1 + (t : Int) = j + ((t + 1 : Nat) : Int) := by push_cast; ring
        rw [e, this]; congr 2; omega

theorem SetWithoutChecks_ok {α : Type} (r : ObjectArray α) (i : Nat) (v : Option α)
    (h : i < r.length) : SetWithoutChecks r (i : Int) v = .ok (r.set i v) := by
  unfold SetWithoutChecks GetLength
  rw [if_pos ⟨by omega, by omega⟩]
  simp

theorem GetWithoutChecks_ok {α : Type} (a : ObjectArray α) (i : Nat)
    (h : i < a.length) : GetWithoutChecks a (i : Int) = .ok (a.getD i none) := by
  unfold GetWithoutChecks GetLength
  rw [if_pos ⟨by omega, by omega⟩]
  simp

theorem padLoop_eq {α : Type} (k : Nat) (empty : α) (r : ObjectArray α) (hk : k ≤ r.length) :
    padLoop (k : Int) empty r = .ok (List.replicate k (some empty) ++ r.drop k) := by
  unfold padLoop
  rw [Int.toNat_ofNat]
  rw [forInt_write _ k 0 0 (List.replicate k (some empty)) r (by simp) (by omega)]
  · simp
  · intro t ht r' hr'
    rw [zero_add, Nat.zero_add, SetWithoutChecks_ok r' t _ (by omega)]
    simp [List.getD_eq_getElem?_getD, List.getElem?_replicate, ht]

theorem shiftLoop_eq {α : Type} (k : Nat) (a r : ObjectArray α)
    (hr : k + a.length ≤ r.length) (h32 : r.length < 2 ^ 31) :
    shiftLoop (k : Int) a r = .ok (r.take k ++ a ++ r.drop (k + a.length)) := by
  unfold shiftLoop GetLength
  rw [Int.toNat_ofNat]
  rw [forInt_write _ a.length 0 k a r rfl hr]
  intro t ht r' hr'
  rw [zero_add, GetWithoutChecks_ok a t ht]
  have e : toInt32 ((t : Int) + (k : Int)) = ((k + t : Nat) : Int) := by
    rw [toInt32_of_range] <;> push_cast <;> omega
  simp only [e]
  rw [SetWithoutChecks_ok r' (k + t) _ (by omega)]

theorem dropLoop_eq {α : Type} (d : Nat) (a r : ObjectArray α)
    (ha : a.length = r.length + d) (h32 : a.length < 2 ^ 31) :
    dropLoop (-(d : Int)) a r = .ok (a.drop d) := by
  unfold dropLoop GetLength
  rw [Int.toNat_ofNat]
  rw [forInt_write _ r.length 0 0 (a.drop d) r (by simp; omega) (by omega)]
  · simp
  · intro t ht r' hr'
    have e : toInt32 (0 + (t : Int) - -(d : Int)) = ((t + d : Nat) : Int) := by
      rw [toInt32_of_range] <;> push_cast <;> omega
    simp only [e]
    rw [GetWithoutChecks_ok a (t + d) (by omega), zero_add, Nat.zero_add]
    simp only
    rw [SetWithoutChecks_ok r' t _ (by omega)]
    congr 2
    simp [List.getD_eq_getElem?_getD, List.getElem?_drop, Nat.add_comm]

/-- What the resize path computes: padding in front when the new array is longer, the tail of
the annotations when it is shorter. -/
theorem resizeAnnotations_eq {α : Type} (heap : Heap α) (a : ObjectArray α) (n : Nat)
    (hn : n < 2 ^ 31) (hm : a.length < 2 ^ 31) (hne : a.length ≠ n)
    (hheap : a.length < n → heap.emptyAllocOk = true) :
    resizeAnnotations heap a (List.replicate n none) =
      .ok (.value (if a.length < n
        then List.replicate (n - a.length) (some heap.emptyAnnotations) ++ a
        else a.drop (a.length - n))) := by
  unfold resizeAnnotations
  simp only [GetLength, List.length_replicate]
  rw [toInt32_of_range _ (by omega) (by omega)]
  by_cases hlt : a.length < n
  · have hoff : ((n : Int) - (a.length : Int)) = ((n - a.length : Nat) : Int) := by omega
    rw [if_pos (by omega), if_pos (hheap hlt), hoff, padLoop_eq _ _ _ (by simp)]
    simp only
    rw [shiftLoop_eq _ _ _ (by simp; omega) (by simp; omega)]
    simp only [if_pos hlt]
    congr 2
    have : n - a.length + a.length = n := by omega
    simp [this, List.take_append_eq_append_take]
  · have hoff : ((n : Int) - (a.length : Int)) = -((a.length - n : Nat) : Int) := by omega
    rw [if_neg (by omega), if_pos (by omega), hoff,
      dropLoop_eq _ _ _ (by simp; omega) hm]
    simp only [if_neg hlt]

theorem populateParameters_no_fault (executable : Executable) (names : ObjectArray String)
    (access_flags : List Int) :
    ∀ (count i : Nat) (arr : ObjectArray Parameter), i + count ≤ arr.length →
      ∀ e, populateParameters executable names access_flags count (i : Int) arr ≠ .error e := by
  intro count
  induction count with
  | zero => intro i arr _ e; simp [populateParameters]
  | succ k ih =>
    intro i arr h e
    unfold populateParameters
    simp only
    cases hno : executable.NewObject (names.getD (i : Int).toNat none)
        (access_flags.getD (i : Int).toNat 0) (i : Int) with
    | none => simp
    | some p =>
      simp only
      rw [SetWithoutChecks_ok arr i _ (by omega)]
      simp only
      have := ih (i + 1) (arr.set i (some p)) (by simp; omega) e
      simpa using this

/-- C9: `Executable_getParameters0` throws `IllegalArgumentException` exactly when the
declaring class is not a proxy class, `GetParametersMetadataForMethod` found metadata, and
the names array is null, or the access-flags array is null, or the two arrays differ in
length; for a proxy class, and when no metadata is found, it returns null and throws
nothing. -/
theorem getParameters0_illegalArgument_iff (executable : Executable) :
    ((∃ e, Executable_getParameters0 executable = .ok (.threwIllegalArgument e)) ↔
      (executable.IsProxyClass = false ∧
        ∃ names access_flags,
          executable.GetParametersMetadataForMethod = some (names, access_flags) ∧
          (names = none ∨ access_flags = none ∨
            ∃ ns fs, names = some ns ∧ access_flags = some fs ∧ ns.length ≠ fs.length))) ∧
    ((executable.IsProxyClass = true ∨ executable.GetParametersMetadataForMethod = none) →
      Executable_getParameters0 executable = .ok .null) := by
  obtain ⟨proxy, md, allocOk, newObject⟩ := executable
  refine ⟨?_, ?_⟩
  · cases proxy with
    | true => simp [Executable_getParameters0]
    | false =>
      cases md with
      | none => simp [Executable_getParameters0]
      | some pr =>
        obtain ⟨names, access_flags⟩ := pr
        cases names with
        | none =>
          simp only [Executable_getParameters0, Bool.false_eq_true, if_false]
          exact ⟨fun _ => ⟨trivial, none, access_flags, rfl, Or.inl rfl⟩,
            fun _ => ⟨_, by cases access_flags <;> rfl⟩⟩
        | some ns =>
          cases access_flags with
          | none =>
            simp only [Executable_getParameters0, Bool.false_eq_true, if_false]
            exact ⟨fun _ => ⟨trivial, some ns, none, rfl, Or.inr (Or.inl rfl)⟩,
              fun _ => ⟨_, rfl⟩⟩
          | some fs =>
            by_cases hlen : ns.length = fs.length
            · have hcount : GetLength ns = (fs.length : Int) := by
                simp [GetLength, hlen]
              simp only [Executable_getParameters0, hcount, ne_eq, not_true_eq_false,
                if_false, Bool.false_eq_true]
              constructor
              · rintro ⟨e, he⟩
                exfalso
                revert he
                cases Alloc allocOk (fs.length : Int) with
                | none => simp
                | some arr =>
                  simp only
                  cases populateParameters _ ns fs (fs.length : Int).toNat 0 arr with
                  | error e' => simp
                  | ok r => cases r <;> simp
              · rintro ⟨-, names, access_flags, hmd, h⟩
                simp only [Option.some.injEq, Prod.mk.injEq] at hmd
                obtain ⟨rfl, rfl⟩ := hmd
                simp [hlen] at h
            · have hcount : GetLength ns ≠ (fs.length : Int) := by
                simp only [GetLength, ne_eq, Nat.cast_inj]; exact hlen
              simp only [Executable_getParameters0, Bool.false_eq_true, if_false, ne_eq,
                hcount, not_false_eq_true, if_true]
              exact ⟨fun _ => ⟨trivial, some ns, some fs, rfl,
                Or.inr (Or.inr ⟨ns, fs, rfl, rfl, hlen⟩)⟩, fun _ => ⟨_, rfl⟩⟩
  · rintro (h | h)
    · simp only at h; subst h; simp [Executable_getParameters0]
    · simp only at h; subst h; cases proxy <;> simp [Executable_getParameters0]

/-- C9 at a method of a proxy class, and at a method whose metadata has no names array. -/
theorem getParameters0_illegalArgument_iff_witness :
    Executable_getParameters0 ⟨true, none, true, fun _ _ _ => none⟩ = .ok .null ∧
    ∃ e, Executable_getParameters0 ⟨false, some (none, some [0]), true, fun _ _ _ => none⟩ =
      .ok (.threwIllegalArgument e) :=
  ⟨(getParameters0_illegalArgument_iff ⟨true, none, true, fun _ _ _ => none⟩).2 (Or.inl rfl),
    (getParameters0_illegalArgument_iff
      ⟨false, some (none, some [0]), true, fun _ _ _ => none⟩).1.mpr
      ⟨rfl, none, some [0], rfl, Or.inl rfl⟩⟩

theorem Alloc_ok {α : Type} (n : Nat) : (Alloc true (n : Int) : Option (ObjectArray α)) =
    some (List.replicate n none) := by
  simp [Alloc]

/-- C8: for a non-proxy method with non-null parameter annotations `A` (lengths within
`int32_t`): if the method is a constructor whose declaring class is neither local nor an
enum, `A.length ≠ n` for its `n` parameters, and no allocation fails, the native returns an
array of length exactly `n`, namely `n - m` empty annotation arrays followed by `A` when
`m < n`, and `A` without its first `m - n` entries when `n < m`; if the method is not a
constructor, or `A.length = n`, it returns `A` itself. -/
theorem getParameterAnnotations_resized {α : Type} (heap : Heap α) (method : ArtMethod α)
    (A : ObjectArray α)
    (hproxy : method.IsProxyMethod = false)
    (hA : method.GetParameterAnnotations = some A)
    (hn : method.GetNumberOfParameters < 2 ^ 31) (hm : A.length < 2 ^ 31) :
    (method.IsConstructor = true → method.HasEnclosingMethod = false → method.IsEnum = false →
      A.length ≠ method.GetNumberOfParameters →
      heap.resizedAllocOk = true →
      (A.length < method.GetNumberOfParameters → heap.emptyAllocOk = true) →
      ∃ R : ObjectArray α,
        Executable_getParameterAnnotationsNative heap method = .ok (.value R) ∧
        R.length = method.GetNumberOfParameters ∧
        (A.length < method.GetNumberOfParameters →
          R = List.replicate (method.GetNumberOfParameters - A.length)
                (some heap.emptyAnnotations) ++ A) ∧
        (method.GetNumberOfParameters < A.length →
          R = A.drop (A.length - method.GetNumberOfParameters))) ∧
    ((method.IsConstructor = false ∨ A.length = method.GetNumberOfParameters) →
      Executable_getParameterAnnotationsNative heap method = .ok (.value A)) := by
  have hcast : toInt32 (method.GetNumberOfParameters : Int) = method.GetNumberOfParameters :=
    toInt32_of_range _ (by omega) (by omega)
  refine ⟨?_, ?_⟩
  · intro hctor henc henum hne halloc hempty
    have hlenne : ¬ GetLength A = (method.GetNumberOfParameters : Int) := by
      simp only [GetLength, Nat.cast_inj]; exact hne
    refine ⟨if A.length < method.GetNumberOfParameters
        then List.replicate (method.GetNumberOfParameters - A.length)
          (some heap.emptyAnnotations) ++ A
        else A.drop (A.length - method.GetNumberOfParameters), ?_, ?_, ?_, ?_⟩
    · unfold Executable_getParameterAnnotationsNative
      simp only [hproxy, hA, hctor, henc, henum, hcast, hlenne, halloc, Alloc_ok,
        Bool.false_eq_true, if_false, or_self, Bool.true_eq_false]
      exact resizeAnnotations_eq heap A _ hn hm hne hempty
    · split
      · simp; omega
      · simp; omega
    · intro h; rw [if_pos h]
    · intro h; rw [if_neg (by omega)]
  · intro h
    have hc : method.IsConstructor = false ∨
        GetLength A = (method.GetNumberOfParameters : Int) := by
      rcases h with h | h
      · exact Or.inl h
      · exact Or.inr (by simp [GetLength, h])
    unfold Executable_getParameterAnnotationsNative
    simp only [hproxy, hA, hcast, Bool.false_eq_true, if_false, if_pos hc]

/-- C8 at a constructor with three parameters and one annotated parameter. -/
theorem getParameterAnnotations_resized_witness :
    Executable_getParameterAnnotationsNative (⟨true, true, 0⟩ : Heap Nat)
        ⟨false, true, 3, some [some 7], false, false⟩ =
      .ok (.value [some 0, some 0, some 7]) := by
  obtain ⟨R, h, -, hR, -⟩ :=
    (getParameterAnnotations_resized (⟨true, true, 0⟩ : Heap Nat)
      ⟨false, true, 3, some [some 7], false, false⟩ [some 7] rfl rfl
      (by decide) (by decide)).1 rfl rfl rfl (by decide) rfl (fun _ => rfl)
  rw [h, hR (by decide)]
  rfl

/-- C10: in the resize path, run on annotations of length `m` and a fresh array of length
`n ≠ m` (both within `int32_t`), with every unchecked access bounds-checked and the `DCHECK`
evaluated, no access is out of bounds and the `DCHECK` does not fail. In terms of the
indices, with `offset = n - m`: when `offset > 0` the writes at `i` (`i < offset`) and at
`i + offset` (`i < m`) lie in `[0, n)` and the reads at `i` (`i < m`) lie in `[0, m)`; otherwise
`offset < 0` and, for `i < n`, the reads at `i - offset` lie in `[0, m)` and the writes at `i`
in `[0, n)`. -/
theorem resizeAnnotations_in_bounds {α : Type} (heap : Heap α) (A : ObjectArray α) (n : Nat)
    (hn : n < 2 ^ 31) (hm : A.length < 2 ^ 31) (hne : A.length ≠ n) :
    (∀ e, resizeAnnotations heap A (List.replicate n none) ≠ .error e) ∧
    (0 < toInt32 ((n : Int) - (A.length : Int)) →
      (∀ i : Int, 0 ≤ i → i < toInt32 ((n : Int) - (A.length : Int)) → 0 ≤ i ∧ i < n) ∧
      (∀ i : Int, 0 ≤ i → i < A.length →
        (0 ≤ i ∧ i < A.length) ∧
        0 ≤ toInt32 (i + toInt32 ((n : Int) - (A.length : Int))) ∧
        toInt32 (i + toInt32 ((n : Int) - (A.length : Int))) < n)) ∧
    (¬ 0 < toInt32 ((n : Int) - (A.length : Int)) →
      toInt32 ((n : Int) - (A.length : Int)) < 0 ∧
      ∀ i : Int, 0 ≤ i → i < n →
        (0 ≤ toInt32 (i - toInt32 ((n : Int) - (A.length : Int))) ∧
          toInt32 (i - toInt32 ((n : Int) - (A.length : Int))) < A.length) ∧
        (0 ≤ i ∧ i < n)) := by
  have hoff : toInt32 ((n : Int) - (A.length : Int)) = (n : Int) - (A.length : Int) :=
    toInt32_of_range _ (by omega) (by omega)
  rw [hoff]
  refine ⟨?_, ?_, ?_⟩
  · intro e
    by_cases hheap : A.length < n → heap.emptyAllocOk = true
    · rw [resizeAnnotations_eq heap A n hn hm hne hheap]; simp
    · have hlt : A.length < n := by
        by_contra hc; exact hheap (fun h => absurd h hc)
      have hfalse : heap.emptyAllocOk = false := by
        cases h : heap.emptyAllocOk
        · rfl
        · exact absurd (fun _ => h) hheap
      unfold resizeAnnotations
      simp only [GetLength, List.length_replicate, hoff, hfalse, Bool.false_eq_true, if_false]
      rw [if_pos (by omega)]
      simp
  · intro hpos
    refine ⟨fun i h0 h1 => ⟨h0, by omega⟩, fun i h0 h1 => ?_⟩
    rw [toInt32_of_range _ (by omega) (by omega)]
    omega
  · intro hnpos
    refine ⟨by omega, fun i h0 h1 => ?_⟩
    rw [toInt32_of_range _ (by omega) (by omega)]
    omega

/-- C10 at `m = 3`, `n = 1`. -/
theorem resizeAnnotations_in_bounds_witness :
    resizeAnnotations (⟨true, true, 0⟩ : Heap Nat) [some 1, some 2, some 3]
        (List.replicate 1 none) ≠ .error Fault.indexOutOfBounds ∧
    resizeAnnotations (⟨true, true, 0⟩ : Heap Nat) [some 1, some 2, some 3]
        (List.replicate 1 none) ≠ .error Fault.dcheckFailed :=
  ⟨(resizeAnnotations_in_bounds (⟨true, true, 0⟩ : Heap Nat) [some 1, some 2, some 3] 1
      (by decide) (by decide) (by decide)).1 _,
    (resizeAnnotations_in_bounds (⟨true, true, 0⟩ : Heap Nat) [some 1, some 2, some 3] 1
      (by decide) (by decide) (by decide)).1 _⟩

/-! ## Strategy selection -/

/-- C6: `kRegisterAllocatorDefault` is `kRegisterAllocatorLinearScan`, so a caller of `Create`
that names no strategy gets linear scan (and one that names a strategy gets that one), and
`Strategy` has exactly two values, linear scan and graph colouring, which differ. -/
theorem default_strategy_linear_scan :
    kRegisterAllocatorDefault = Strategy.kRegisterAllocatorLinearScan ∧
    Create.strategy none = Strategy.kRegisterAllocatorLinearScan ∧
    (∀ s : Strategy, Create.strategy (some s) = s) ∧
    (∀ s : Strategy, s = Strategy.kRegisterAllocatorLinearScan ∨
      s = Strategy.kRegisterAllocatorGraphColor) ∧
    Strategy.kRegisterAllocatorLinearScan ≠ Strategy.kRegisterAllocatorGraphColor := by
  refine ⟨rfl, rfl, fun _ => rfl, fun s => ?_, by decide⟩
  cases s
  · exact Or.inl rfl
  · exact Or.inr rfl

/-! ## Register masks -/

theorem allRegisters_lt (codegen : RegisterConfiguration) (register_type : RegisterType) :
    allRegisters codegen register_type < 2 ^ 32 := by
  unfold allRegisters
  cases register_type <;> exact Nat.mod_lt _ (by norm_num)

theorem GetRegisterMask_lt (interval : LiveInterval) (register_type : RegisterType) :
    GetRegisterMask interval register_type < 2 ^ 32 := by
  unfold GetRegisterMask
  split
  · exact Nat.mod_lt _ (by norm_num)
  · split
    · exact Nat.mod_lt _ (by norm_num)
    · norm_num

theorem testBit_ones32 (r : Nat) (h : r < 32) : (0xFFFFFFFF : Nat).testBit r = true := by
  have : (0xFFFFFFFF : Nat) = 2 ^ 32 - 1 := by norm_num
  rw [this, Nat.testBit_two_pow_sub_one]
  simpa using h

theorem blockedRegisters_mono (before after : List LiveInterval) (f : LiveInterval)
    (position : Nat) (register_type : RegisterType) (r : Nat)
    (h : (blockedRegisters (before ++ after) position register_type).testBit r = true) :
    (blockedRegisters (before ++ f :: after) position register_type).testBit r = true := by
  induction before with
  | nil =>
    simp only [List.nil_append] at h ⊢
    unfold blockedRegisters
    split
    · simp [Nat.testBit_or, h]
    · exact h
  | cons g rest ih =>
    simp only [List.cons_append] at h ⊢
    unfold blockedRegisters at h ⊢
    split
    · rename_i hg
      rw [if_pos hg] at h
      simp only [Nat.testBit_or, Bool.or_eq_true] at h ⊢
      exact h.imp id ih
    · rename_i hg
      rw [if_neg hg] at h
      exact ih h

theorem blockedRegisters_mem (before after : List LiveInterval) (f : LiveInterval)
    (position : Nat) (register_type : RegisterType) (r : Nat)
    (hcov : f.Covers position)
    (h : (GetRegisterMask f register_type).testBit r = true) :
    (blockedRegisters (before ++ f :: after) position register_type).testBit r = true := by
  induction before with
  | nil =>
    simp only [List.nil_append]
    unfold blockedRegisters
    rw [if_pos hcov]
    simp [Nat.testBit_or, h]
  | cons g rest ih =>
    simp only [List.cons_append]
    unfold blockedRegisters
    split
    · simp [Nat.testBit_or, ih]
    · exact ih

/-- C7: register-mask monotonicity. Adding a fixed/fence interval `f` to the fixed intervals
(anywhere in their list) never adds a register to the usable mask of an interval at a
position: every register usable afterwards was usable before. When `f` covers the position,
the registers in its mask are not usable afterwards. -/
theorem usableRegisterMask_mono (codegen : RegisterConfiguration)
    (before after : List LiveInterval) (f interval : LiveInterval) (position : Nat) :
    (∀ r : Nat,
      (usableRegisterMask codegen (before ++ f :: after) interval position).testBit r = true →
      (usableRegisterMask codegen (before ++ after) interval position).testBit r = true) ∧
    (f.Covers position → ∀ r : Nat,
      (GetRegisterMask f interval.registerType).testBit r = true →
      (usableRegisterMask codegen (before ++ f :: after) interval position).testBit r = false) := by
  constructor
  · intro r h
    unfold usableRegisterMask at h ⊢
    simp only [Nat.testBit_and, Nat.testBit_xor, Bool.and_eq_true] at h ⊢
    refine ⟨h.1, ?_⟩
    have hb := blockedRegisters_mono before after f position interval.registerType r
    cases hold : (blockedRegisters (before ++ after) position interval.registerType).testBit r with
    | false =>
      have hlt : r < 32 := by
        by_contra hge
        have h2 : allRegisters codegen interval.registerType < 2 ^ r :=
          lt_of_lt_of_le (allRegisters_lt codegen _)
            (Nat.pow_le_pow_right (by norm_num) (by omega))
        rw [Nat.testBit_lt_two_pow h2] at h
        exact absurd h.1 (by simp)
      simp [testBit_ones32 r hlt]
    | true => rw [hb hold] at h; exact h.2
  · intro hcov r hr
    unfold usableRegisterMask
    have hb := blockedRegisters_mem before after f position interval.registerType r hcov hr
    have hlt : r < 32 := by
      by_contra hge
      have h2 : GetRegisterMask f interval.registerType < 2 ^ r :=
        lt_of_lt_of_le (GetRegisterMask_lt f _)
          (Nat.pow_le_pow_right (by norm_num) (by omega))
      rw [Nat.testBit_lt_two_pow h2] at hr
      exact absurd hr (by simp)
    simp [Nat.testBit_and, Nat.testBit_xor, hb, testBit_ones32 r hlt]

/-- C7 with four core registers and a fence over `[4, 6)` that blocks registers 1 and 2:
register 1 is not usable at position 5. -/
theorem usableRegisterMask_mono_witness :
    (usableRegisterMask ⟨4, 4, 0, 0⟩
      [⟨[⟨4, 6⟩], [], .kCoreRegister, .unassigned, 0, 0, none, some (fun _ => 6)⟩]
      ⟨[⟨0, 9⟩], [], .kCoreRegister, .unassigned, 0, 1, none, none⟩ 5).testBit 1 = false :=
  (usableRegisterMask_mono ⟨4, 4, 0, 0⟩ [] []
    ⟨[⟨4, 6⟩], [], .kCoreRegister, .unassigned, 0, 0, none, some (fun _ => 6)⟩
    ⟨[⟨0, 9⟩], [], .kCoreRegister, .unassigned, 0, 1, none, none⟩ 5).2
    (by decide) 1 (by decide)

/-! ## The validator -/

theorem LiveRange.intersects_iff (a b : LiveRange) :
    a.Intersects b = true ↔ ∃ p, a.Covers p ∧ b.Covers p := by
  unfold LiveRange.Intersects LiveRange.Covers
  simp only [decide_eq_true_eq]
  constructor
  · intro h
    exact ⟨max a.start b.start, ⟨le_max_left _ _, lt_of_lt_of_le h (min_le_left _ _)⟩,
      ⟨le_max_right _ _, lt_of_lt_of_le h (min_le_right _ _)⟩⟩
  · rintro ⟨p, ⟨h1, h2⟩, ⟨h3, h4⟩⟩
    exact lt_of_le_of_lt (max_le h1 h3) (lt_min h2 h4)

theorem LiveInterval.overlaps_iff (a b : LiveInterval) :
    a.Overlaps b = true ↔ ∃ p, a.Covers p ∧ b.Covers p := by
  unfold LiveInterval.Overlaps LiveInterval.Covers
  simp only [List.any_eq_true, LiveRange.intersects_iff]
  constructor
  · rintro ⟨r, hr, s, hs, p, h1, h2⟩
    exact ⟨p, ⟨r, hr, h1⟩, ⟨s, hs, h2⟩⟩
  · rintro ⟨p, ⟨r, hr, h1⟩, ⟨s, hs, h2⟩⟩
    exact ⟨r, hr, s, hs, p, h1, h2⟩

theorem Location.sameStorage_iff (x y : Location) :
    x.SameStorage y = true ↔
      (∃ r, x = .register r ∧ y = .register r) ∨
        (∃ s, x = .spillSlot s ∧ y = .spillSlot s) := by
  cases x <;> cases y <;> simp [Location.SameStorage, eq_comm]

theorem LiveInterval.conflictsWith_iff (a b : LiveInterval) :
    a.ConflictsWith b = true ↔
      ((∃ r, a.location = .register r ∧ b.location = .register r) ∨
        (∃ s, a.location = .spillSlot s ∧ b.location = .spillSlot s)) ∧
      ∃ p, a.Covers p ∧ b.Covers p := by
  unfold LiveInterval.ConflictsWith
  rw [Bool.and_eq_true, Location.sameStorage_iff, LiveInterval.overlaps_iff]

theorem LiveInterval.conflictsWith_comm (a b : LiveInterval) :
    a.ConflictsWith b = true → b.ConflictsWith a = true := by
  rw [LiveInterval.conflictsWith_iff, LiveInterval.conflictsWith_iff]
  rintro ⟨h, p, h1, h2⟩
  refine ⟨?_, p, h2, h1⟩
  rcases h with ⟨r, h3, h4⟩ | ⟨s, h3, h4⟩
  · exact Or.inl ⟨r, h4, h3⟩
  · exact Or.inr ⟨s, h4, h3⟩

theorem hasConflict_iff (l : List LiveInterval) :
    hasConflict l = true ↔
      ∃ (i j : Nat) (a b : LiveInterval),
        i ≠ j ∧ l[i]? = some a ∧ l[j]? = some b ∧ a.ConflictsWith b = true := by
  induction l with
  | nil => simp [hasConflict]
  | cons x rest ih =>
    unfold hasConflict
    rw [Bool.or_eq_true, List.any_eq_true, ih]
    constructor
    · rintro (⟨b, hb, hc⟩ | ⟨i, j, a, b, hij, ha, hb, hc⟩)
      · obtain ⟨j, hj⟩ := List.getElem?_of_mem hb
        exact ⟨0, j + 1, x, b, by omega, by simp, by simpa using hj, hc⟩
      · exact ⟨i + 1, j + 1, a, b, by omega, by simpa using ha, by simpa using hb, hc⟩
    · rintro ⟨i, j, a, b, hij, ha, hb, hc⟩
      cases i with
      | zero =>
        cases j with
        | zero => exact absurd rfl hij
        | succ j =>
          simp only [List.getElem?_cons_zero, Option.some.injEq] at ha
          simp only [List.getElem?_cons_succ] at hb
          subst ha
          exact Or.inl ⟨b, List.getElem?_mem hb, hc⟩
      | succ i =>
        cases j with
        | zero =>
          simp only [List.getElem?_cons_zero, Option.some.injEq] at hb
          simp only [List.getElem?_cons_succ] at ha
          subst hb
          exact Or.inl ⟨a, List.getElem?_mem ha, LiveInterval.conflictsWith_comm _ _ hc⟩
        | succ j =>
          simp only [List.getElem?_cons_succ] at ha hb
          exact Or.inr ⟨i, j, a, b, by omega, ha, hb, hc⟩

/-- C2: with `log_fatal_on_failure = false`, `ValidateIntervals` returns false, without
raising the fatal diagnostic, exactly when two distinct intervals of the set are assigned the
same physical register or the same spill slot and some position lies in the live ranges of
both; and it returns true exactly when there is no such pair. -/
theorem validateIntervals_boolean_mode (intervals : List LiveInterval)
    (number_of_spill_slots number_of_out_slots : Nat) (codegen : RegisterConfiguration)
    (register_type : RegisterType) :
    (ValidateIntervals intervals number_of_spill_slots number_of_out_slots codegen
        register_type false = .ok false ↔
      ∃ (i j : Nat) (a b : LiveInterval), i ≠ j ∧ intervals[i]? = some a ∧ intervals[j]? = some b ∧
        ((∃ r, a.location = .register r ∧ b.location = .register r) ∨
          (∃ s, a.location = .spillSlot s ∧ b.location = .spillSlot s)) ∧
        ∃ p, a.Covers p ∧ b.Covers p) ∧
    (ValidateIntervals intervals number_of_spill_slots number_of_out_slots codegen
        register_type false = .ok true ↔
      ¬ ∃ (i j : Nat) (a b : LiveInterval), i ≠ j ∧ intervals[i]? = some a ∧ intervals[j]? = some b ∧
        ((∃ r, a.location = .register r ∧ b.location = .register r) ∨
          (∃ s, a.location = .spillSlot s ∧ b.location = .spillSlot s)) ∧
        ∃ p, a.Covers p ∧ b.Covers p) := by
  have key : hasConflict intervals = true ↔
      ∃ (i j : Nat) (a b : LiveInterval), i ≠ j ∧ intervals[i]? = some a ∧ intervals[j]? = some b ∧
        ((∃ r, a.location = .register r ∧ b.location = .register r) ∨
          (∃ s, a.location = .spillSlot s ∧ b.location = .spillSlot s)) ∧
        ∃ p, a.Covers p ∧ b.Covers p := by
    rw [hasConflict_iff]
    simp only [LiveInterval.conflictsWith_iff]
  rw [← key]
  unfold ValidateIntervals
  cases hasConflict intervals <;> simp

/-- C2 on the intervals `[0, 10)` and `[5, 15)`, both in register 0: the validator returns
false. -/
theorem validateIntervals_boolean_mode_witness :
    ValidateIntervals
      [⟨[⟨0, 10⟩], [], .kCoreRegister, .register 0, 0, 0, none, none⟩,
        ⟨[⟨5, 15⟩], [], .kCoreRegister, .register 0, 0, 1, none, none⟩]
      0 0 ⟨1, 1, 0, 0⟩ .kCoreRegister false = .ok false :=
  (validateIntervals_boolean_mode
    [⟨[⟨0, 10⟩], [], .kCoreRegister, .register 0, 0, 0, none, none⟩,
      ⟨[⟨5, 15⟩], [], .kCoreRegister, .register 0, 0, 1, none, none⟩]
    0 0 ⟨1, 1, 0, 0⟩ .kCoreRegister).1.mpr
    ⟨0, 1, _, _, by decide, rfl, rfl, Or.inl ⟨0, rfl, rfl⟩, 7, by decide, by decide⟩

/-! ## The splitter -/

theorem splitRanges_fst_covers (p : Nat) :
    ∀ rs : List LiveRange, rs.Pairwise (fun a b => a.end_ ≤ b.start) →
      ∀ x, (∃ r ∈ (splitRanges p rs).1, r.Covers x) ↔ (∃ r ∈ rs, r.Covers x) ∧ x < p := by
  intro rs
  induction rs with
  | nil => intro _ x; simp [splitRanges]
  | cons r rest ih =>
    intro hs x
    have hrest := ih (List.Pairwise.of_cons hs) x
    have hle : ∀ s ∈ rest, r.end_ ≤ s.start :=
      fun _ hm => List.rel_of_pairwise_cons hs hm
    unfold splitRanges
    split
    · rename_i h1
      simp only [List.mem_cons, exists_eq_or_imp, hrest]
      constructor
      · rintro (h | ⟨h, hx⟩)
        · exact ⟨Or.inl h, lt_of_lt_of_le h.2 h1⟩
        · exact ⟨Or.inr h, hx⟩
      · rintro ⟨h | h, hx⟩
        · exact Or.inl h
        · exact Or.inr ⟨h, hx⟩
    · rename_i h1
      split
      · rename_i h2
        simp only [List.not_mem_nil, false_and, exists_false, List.mem_cons, exists_eq_or_imp,
          false_iff, not_and, not_lt]
        rintro (h | ⟨s, hs', h⟩)
        · exact le_trans h2 h.1
        · have := hle s hs'
          unfold LiveRange.Covers at h
          omega
      · rename_i h2
        have hsingle : (∃ q ∈ [(⟨r.start, p⟩ : LiveRange)], q.Covers x) ↔
            (r.start ≤ x ∧ x < p) := by
          simp [LiveRange.Covers]
        rw [hsingle]
        simp only [List.mem_cons, exists_eq_or_imp, LiveRange.Covers]
        constructor
        · rintro ⟨h3, h4⟩
          exact ⟨Or.inl ⟨h3, by omega⟩, h4⟩
        · rintro ⟨h | ⟨s, hs', h⟩, hx⟩
          · exact ⟨h.1, hx⟩
          · have := hle s hs'
            omega

theorem splitRanges_snd_covers (p : Nat) :
    ∀ rs : List LiveRange, rs.Pairwise (fun a b => a.end_ ≤ b.start) →
      ∀ x, (∃ r ∈ (splitRanges p rs).2, r.Covers x) ↔ (∃ r ∈ rs, r.Covers x) ∧ p ≤ x := by
  intro rs
  induction rs with
  | nil => intro _ x; simp [splitRanges]
  | cons r rest ih =>
    intro hs x
    have hrest := ih (List.Pairwise.of_cons hs) x
    have hle : ∀ s ∈ rest, r.end_ ≤ s.start :=
      fun _ hm => List.rel_of_pairwise_cons hs hm
    unfold splitRanges
    split
    · rename_i h1
      simp only [List.mem_cons, exists_eq_or_imp, hrest]
      constructor
      · rintro ⟨h, hx⟩
        exact ⟨Or.inr h, hx⟩
      · rintro ⟨h | h, hx⟩
        · unfold LiveRange.Covers at h; omega
        · exact ⟨h, hx⟩
    · rename_i h1
      split
      · rename_i h2
        simp only [List.mem_cons, exists_eq_or_imp, iff_self_and]
        rintro (h | ⟨s, hs', h⟩)
        · exact le_trans h2 h.1
        · have := hle s hs'
          unfold LiveRange.Covers at h
          omega
      · rename_i h2
        simp only [List.mem_cons, exists_eq_or_imp, LiveRange.Covers]
        constructor
        · rintro (⟨h3, h4⟩ | ⟨s, hs', h⟩)
          · exact ⟨Or.inl ⟨by omega, h4⟩, h3⟩
          · have := hle s hs'
            exact ⟨Or.inr ⟨s, hs', h⟩, by omega⟩
        · rintro ⟨h | ⟨s, hs', h⟩, hx⟩
          · exact Or.inl ⟨hx, h.2⟩
          · exact Or.inr ⟨s, hs', h⟩

theorem splitRanges_fst_head (p : Nat) (rs : List LiveRange) (s : Nat)
    (hs : rs.head?.map (fun r => r.start) = some s) (hsp : s < p) :
    (splitRanges p rs).1.head?.map (fun r => r.start) = some s := by
  cases rs with
  | nil => simp at hs
  | cons r rest =>
    simp only [List.head?_cons, Option.map_some', Option.some.injEq] at hs
    unfold splitRanges
    split
    · simpa using hs
    · split
      · omega
      · simpa using hs

theorem splitRanges_snd_last (p : Nat) :
    ∀ (rs : List LiveRange) (e : Nat), rs.getLast?.map (fun r => r.end_) = some e → p < e →
      (splitRanges p rs).2.getLast?.map (fun r => r.end_) = some e := by
  intro rs
  induction rs with
  | nil => intro e he; simp at he
  | cons r rest ih =>
    intro e he hpe
    unfold splitRanges
    split
    · rename_i h1
      cases rest with
      | nil =>
        simp only [List.getLast?_singleton, Option.map_some', Option.some.injEq] at he
        omega
      | cons r' rest' =>
        rw [List.getLast?_cons_cons] at he
        exact ih e he hpe
    · split
      · exact he
      · cases rest with
        | nil => simpa using he
        | cons r' rest' =>
          rw [List.getLast?_cons_cons] at he ⊢
          exact he

theorem splitRanges_snd_start_ge (p : Nat) :
    ∀ (rs : List LiveRange) (q : Nat),
      (splitRanges p rs).2.head?.map (fun r => r.start) = some q → p ≤ q := by
  intro rs
  induction rs with
  | nil => intro q hq; simp [splitRanges] at hq
  | cons r rest ih =>
    intro q hq
    unfold splitRanges at hq
    split at hq
    · exact ih q hq
    · split at hq
      · simp only [List.head?_cons, Option.map_some', Option.some.injEq] at hq
        omega
      · simp only [List.head?_cons, Option.map_some', Option.some.injEq] at hq
        omega

theorem splitRanges_snd_start_eq (p : Nat) :
    ∀ rs : List LiveRange, rs.Pairwise (fun a b => a.end_ ≤ b.start) →
      (∃ r ∈ rs, r.Covers p) →
      (splitRanges p rs).2.head?.map (fun r => r.start) = some p := by
  intro rs
  induction rs with
  | nil => intro _ h; simp at h
  | cons r rest ih =>
    intro hs hcov
    have hle : ∀ s ∈ rest, r.end_ ≤ s.start :=
      fun _ hm => List.rel_of_pairwise_cons hs hm
    unfold splitRanges
    split
    · rename_i h1
      apply ih (List.Pairwise.of_cons hs)
      simp only [List.mem_cons, exists_eq_or_imp] at hcov
      rcases hcov with h | h
      · unfold LiveRange.Covers at h; omega
      · exact h
    · rename_i h1
      split
      · rename_i h2
        simp only [List.mem_cons, exists_eq_or_imp] at hcov
        simp only [List.head?_cons, Option.map_some', Option.some.injEq]
        rcases hcov with h | ⟨s, hs', h⟩
        · unfold LiveRange.Covers at h; omega
        · have := hle s hs'
          unfold LiveRange.Covers at h
          omega
      · simp

theorem splitUses_append (p : Nat) (us : List UsePosition) :
    (splitUses p us).1 ++ (splitUses p us).2 = us := by
  induction us with
  | nil => simp [splitUses]
  | cons u rest ih =>
    unfold splitUses
    split
    · simpa using ih
    · simp

theorem splitUses_fst (p : Nat) :
    ∀ us : List UsePosition, us.Pairwise (fun a b => a.position ≤ b.position) →
      (splitUses p us).1 = us.filter (fun u => decide (u.position < p)) := by
  intro us
  induction us with
  | nil => intro _; simp [splitUses]
  | cons u rest ih =>
    intro hs
    have hle : ∀ v ∈ rest, u.position ≤ v.position :=
      fun _ hm => List.rel_of_pairwise_cons hs hm
    unfold splitUses
    split
    · rename_i h
      rw [List.filter_cons_of_pos (by simpa using h), ih (List.Pairwise.of_cons hs)]
    · rename_i h
      rw [List.filter_cons_of_neg (by simpa using h)]
      symm
      rw [List.filter_eq_nil_iff]
      intro v hv
      have := hle v hv
      simp only [decide_eq_true_eq]
      omega

theorem splitUses_snd (p : Nat) :
    ∀ us : List UsePosition, us.Pairwise (fun a b => a.position ≤ b.position) →
      (splitUses p us).2 = us.filter (fun u => decide (p ≤ u.position)) := by
  intro us
  induction us with
  | nil => intro _; simp [splitUses]
  | cons u rest ih =>
    intro hs
    have hle : ∀ v ∈ rest, u.position ≤ v.position :=
      fun _ hm => List.rel_of_pairwise_cons hs hm
    unfold splitUses
    split
    · rename_i h
      rw [List.filter_cons_of_neg (by simpa using h), ih (List.Pairwise.of_cons hs)]
    · rename_i h
      rw [List.filter_cons_of_pos (by simpa using h)]
      have hall : rest.filter (fun u => decide (p ≤ u.position)) = rest := by
        rw [List.filter_eq_self]
        intro v hv
        have := hle v hv
        simp only [decide_eq_true_eq]
        omega
      rw [hall]

theorem splitRanges_fst_mem (p : Nat) :
    ∀ (rs : List LiveRange) (s : LiveRange), s ∈ (splitRanges p rs).1 →
      ∃ r ∈ rs, s.start = r.start ∧ s.end_ ≤ r.end_ ∧ (r.start < r.end_ → s.start < s.end_) := by
  intro rs
  induction rs with
  | nil => intro s hs; simp [splitRanges] at hs
  | cons r rest ih =>
    intro s hs
    unfold splitRanges at hs
    split at hs
    · simp only [List.mem_cons] at hs
      rcases hs with rfl | hs
      · exact ⟨s, List.mem_cons_self _ _, rfl, le_refl _, id⟩
      · obtain ⟨r', hr', h⟩ := ih s hs
        exact ⟨r', List.mem_cons_of_mem _ hr', h⟩
    · rename_i h1
      split at hs
      · simp at hs
      · rename_i h2
        simp only [List.mem_singleton] at hs
        subst hs
        exact ⟨r, List.mem_cons_self _ _, rfl, by simp only; omega, fun _ => by simp only; omega⟩

theorem splitRanges_fst_wf (p : Nat) :
    ∀ rs : List LiveRange, rs.Pairwise (fun a b => a.end_ ≤ b.start) →
      (splitRanges p rs).1.Pairwise (fun a b => a.end_ ≤ b.start) := by
  intro rs
  induction rs with
  | nil => intro _; simp [splitRanges]
  | cons r rest ih =>
    intro hs
    have hle : ∀ s ∈ rest, r.end_ ≤ s.start :=
      fun _ hm => List.rel_of_pairwise_cons hs hm
    unfold splitRanges
    split
    · refine List.Pairwise.cons ?_ (ih (List.Pairwise.of_cons hs))
      intro s hs'
      obtain ⟨r', hr', h1, -⟩ := splitRanges_fst_mem p rest s hs'
      rw [h1]
      exact hle r' hr'
    · split
      · exact List.Pairwise.nil
      · exact List.pairwise_singleton _ _

theorem splitRanges_snd_wf (p : Nat) :
    ∀ rs : List LiveRange, rs.Pairwise (fun a b => a.end_ ≤ b.start) →
      (splitRanges p rs).2.Pairwise (fun a b => a.end_ ≤ b.start) := by
  intro rs
  induction rs with
  | nil => intro _; simp [splitRanges]
  | cons r rest ih =>
    intro hs
    have hle : ∀ s ∈ rest, r.end_ ≤ s.start :=
      fun _ hm => List.rel_of_pairwise_cons hs hm
    unfold splitRanges
    split
    · exact ih (List.Pairwise.of_cons hs)
    · split
      · exact hs
      · exact List.Pairwise.cons hle (List.Pairwise.of_cons hs)

theorem splitRanges_snd_nonempty (p : Nat) :
    ∀ rs : List LiveRange, (∀ r ∈ rs, r.start < r.end_) →
      ∀ s ∈ (splitRanges p rs).2, s.start < s.end_ := by
  intro rs
  induction rs with
  | nil => intro _ s hs; simp [splitRanges] at hs
  | cons r rest ih =>
    intro hne s hs
    unfold splitRanges at hs
    split at hs
    · exact ih (fun r' hr' => hne r' (List.mem_cons_of_mem _ hr')) s hs
    · rename_i h1
      split at hs
      · exact hne s hs
      · simp only [List.mem_cons] at hs
        rcases hs with rfl | hs
        · simp only; omega
        · exact hne s (List.mem_cons_of_mem _ hs)

/-- C4: split-at-start identity. When `position` is the start of the interval, `Split`
returns that same interval (same index), the table has as many intervals as before, the
interval has no location, its ranges, uses and every other attribute are unchanged, and so
is every other interval. -/
theorem split_at_start (table : List LiveInterval) (interval : Nat) (I : LiveInterval)
    (position : Nat) (hI : table[interval]? = some I) (hstart : I.GetStart = some position) :
    ∃ (table' : List LiveInterval) (I' : LiveInterval),
      Split table interval position = some (table', interval) ∧
      table'.length = table.length ∧
      table'[interval]? = some I' ∧
      I'.location = Location.unassigned ∧
      I'.ranges = I.ranges ∧ I'.uses = I.uses ∧
      I' = { I with location := Location.unassigned } ∧
      (∀ k, k ≠ interval → table'[k]? = table[k]?) := by
  have hlt : interval < table.length := by
    by_contra h
    rw [List.getElem?_eq_none (by omega)] at hI
    exact absurd hI (by simp)
  refine ⟨table.set interval { I with location := Location.unassigned },
    { I with location := Location.unassigned }, ?_, ?_, ?_, rfl, rfl, rfl, rfl, ?_⟩
  · unfold Split
    simp only [hI, hstart, if_true]
  · simp
  · simp [List.getElem?_set, hlt]
  · intro k hk
    rw [List.getElem?_set]
    simp [Ne.symm hk]

/-- C4 on a one-entry table. -/
theorem split_at_start_witness :
    ∃ (table' : List LiveInterval) (I' : LiveInterval),
      Split [⟨[⟨2, 6⟩], [⟨3, true, none⟩], .kCoreRegister, .register 1, 0, 0, none, none⟩] 0 2 =
        some (table', 0) ∧
      table'.length = 1 ∧ table'[0]? = some I' ∧ I'.location = Location.unassigned ∧
      I'.ranges = [⟨2, 6⟩] ∧ I'.uses = [⟨3, true, none⟩] := by
  obtain ⟨t, I', h1, h2, h3, h4, h5, h6, -, -⟩ :=
    split_at_start [⟨[⟨2, 6⟩], [⟨3, true, none⟩], .kCoreRegister, .register 1, 0, 0, none, none⟩]
      0 ⟨[⟨2, 6⟩], [⟨3, true, none⟩], .kCoreRegister, .register 1, 0, 0, none, none⟩ 2 rfl rfl
  exact ⟨t, I', h1, h2, h3, h4, h5, h6⟩

/-- C3, as amended: split partition law. For a well-formed interval `I` and a position strictly
inside its span, `Split` appends one new sibling to the table and returns it. The truncated original
holds exactly the positions of `I` before the cut and the sibling exactly those at or after
it, so the two are disjoint and together cover what `I` covered; the original still starts
where `I` started, the sibling ends where `I` ended and starts at or after the cut (at the
cut itself when `I` is live there). The uses before the cut stay with the original and those
at or after it go to the sibling, in order and without loss. Both parts again satisfy the
invariant of the interval model, and the two are linked as siblings under the same parent. -/
theorem split_partition (table : List LiveInterval) (interval : Nat) (I : LiveInterval)
    (position s e : Nat) (hI : table[interval]? = some I) (hwf : I.WellFormed)
    (hs : I.GetStart = some s) (he : I.GetEnd = some e)
    (h1 : s < position) (h2 : position < e) :
    ∃ (table' : List LiveInterval) (first second : LiveInterval),
      Split table interval position = some (table', table.length) ∧
      table'.length = table.length + 1 ∧
      table'[interval]? = some first ∧
      table'[table.length]? = some second ∧
      (∀ k, k ≠ interval → k < table.length → table'[k]? = table[k]?) ∧
      (∀ x, first.Covers x ↔ I.Covers x ∧ x < position) ∧
      (∀ x, second.Covers x ↔ I.Covers x ∧ position ≤ x) ∧
      (∀ x, ¬ (first.Covers x ∧ second.Covers x)) ∧
      (∀ x, I.Covers x ↔ first.Covers x ∨ second.Covers x) ∧
      first.GetStart = some s ∧ second.GetEnd = some e ∧
      (∀ q, second.GetStart = some q → position ≤ q) ∧
      (I.Covers position → second.GetStart = some position) ∧
      first.uses ++ second.uses = I.uses ∧
      first.uses = I.uses.filter (fun u => decide (u.position < position)) ∧
      second.uses = I.uses.filter (fun u => decide (position ≤ u.position)) ∧
      first.WellFormed ∧ second.WellFormed ∧
      first.nextSibling = some table.length ∧ second.nextSibling = I.nextSibling ∧
      first.parent = I.parent ∧ second.parent = I.parent ∧
      first.location = I.location ∧ second.location = Location.unassigned := by
  have hlt : interval < table.length := by
    by_contra h
    rw [List.getElem?_eq_none (by omega)] at hI
    exact absurd hI (by simp)
  have hne : ¬ I.GetStart = some position := by
    rw [hs]; simp only [Option.some.injEq]; omega
  have hfst := splitRanges_fst_covers position I.ranges hwf.sorted
  have hsnd := splitRanges_snd_covers position I.ranges hwf.sorted
  refine ⟨table.set interval
      { I with
        ranges := (splitRanges position I.ranges).1
        uses := (splitUses position I.uses).1
        nextSibling := some table.length } ++
      [{ I with
        ranges := (splitRanges position I.ranges).2
        uses := (splitUses position I.uses).2
        location := Location.unassigned }],
    { I with
      ranges := (splitRanges position I.ranges).1
      uses := (splitUses position I.uses).1
      nextSibling := some table.length },
    { I with
      ranges := (splitRanges position I.ranges).2
      uses := (splitUses position I.uses).2
      location := Location.unassigned },
    ?_, ?_, ?_, ?_, ?_, ?_, ?_, ?_, ?_, ?_, ?_, ?_, ?_, ?_, ?_, ?_,
    ?_, ?_, ?_, ?_, ?_, ?_, ?_, ?_⟩
  · unfold Split
    simp only [hI, hne, if_false]
  · simp
  · rw [List.getElem?_append_left (by simpa using hlt)]
    simp [List.getElem?_set, hlt]
  · rw [List.getElem?_append_right (by simp)]
    simp
  · intro k hk hkl
    rw [List.getElem?_append_left (by simpa using hkl), List.getElem?_set]
    simp [Ne.symm hk]
  · exact hfst
  · exact hsnd
  · intro x hx
    have := (hfst x).mp hx.1
    have := (hsnd x).mp hx.2
    omega
  · intro x
    constructor
    · intro hx
      by_cases hxp : x < position
      · exact Or.inl ((hfst x).mpr ⟨hx, hxp⟩)
      · exact Or.inr ((hsnd x).mpr ⟨hx, by omega⟩)
    · rintro (hx | hx)
      · exact ((hfst x).mp hx).1
      · exact ((hsnd x).mp hx).1
  · exact splitRanges_fst_head position I.ranges s hs h1
  · exact splitRanges_snd_last position I.ranges e he h2
  · exact splitRanges_snd_start_ge position I.ranges
  · exact splitRanges_snd_start_eq position I.ranges hwf.sorted
  · exact splitUses_append position I.uses
  · exact splitUses_fst position I.uses hwf.usesOrdered
  · exact splitUses_snd position I.uses hwf.usesOrdered
  · refine ⟨fun r hr => ?_, splitRanges_fst_wf position I.ranges hwf.sorted, ?_⟩
    · obtain ⟨r', hr', -, -, h⟩ := splitRanges_fst_mem position I.ranges r hr
      exact h (hwf.nonempty r' hr')
    · show (splitUses position I.uses).1.Pairwise _
      rw [splitUses_fst position I.uses hwf.usesOrdered]
      exact List.Pairwise.filter _ hwf.usesOrdered
  · refine ⟨splitRanges_snd_nonempty position I.ranges hwf.nonempty,
      splitRanges_snd_wf position I.ranges hwf.sorted, ?_⟩
    show (splitUses position I.uses).2.Pairwise _
    rw [splitUses_snd position I.uses hwf.usesOrdered]
    exact List.Pairwise.filter _ hwf.usesOrdered
  all_goals rfl

/-- C3 on the interval `[0, 4) ∪ [6, 10)` with uses at 1 and 7, cut at 5 (in the hole). -/
theorem split_partition_witness :
    ∃ (table' : List LiveInterval) (first second : LiveInterval),
      Split [⟨[⟨0, 4⟩, ⟨6, 10⟩], [⟨1, true, none⟩, ⟨7, false, none⟩], .kCoreRegister,
          .register 0, 0, 0, none, none⟩] 0 5 = some (table', 1) ∧
      table'[0]? = some first ∧ table'[1]? = some second ∧
      (∀ x, first.Covers x ↔
        (LiveInterval.mk [⟨0, 4⟩, ⟨6, 10⟩] [⟨1, true, none⟩, ⟨7, false, none⟩] .kCoreRegister
          (.register 0) 0 0 none none).Covers x ∧ x < 5) ∧
      (∀ x, second.Covers x ↔
        (LiveInterval.mk [⟨0, 4⟩, ⟨6, 10⟩] [⟨1, true, none⟩, ⟨7, false, none⟩] .kCoreRegister
          (.register 0) 0 0 none none).Covers x ∧ 5 ≤ x) ∧
      first.uses ++ second.uses = [⟨1, true, none⟩, ⟨7, false, none⟩] := by
  obtain ⟨t, a, b, h1, -, h3, h4, -, h6, h7, -, -, -, -, -, -, h14, -⟩ :=
    split_partition
      [⟨[⟨0, 4⟩, ⟨6, 10⟩], [⟨1, true, none⟩, ⟨7, false, none⟩], .kCoreRegister,
        .register 0, 0, 0, none, none⟩] 0
      ⟨[⟨0, 4⟩, ⟨6, 10⟩], [⟨1, true, none⟩, ⟨7, false, none⟩], .kCoreRegister,
        .register 0, 0, 0, none, none⟩ 5 0 10 rfl
      ⟨by decide, by decide, by decide⟩ rfl rfl (by decide) (by decide)
  exact ⟨t, a, b, h1, h3, h4, h6, h7, h14⟩

/-- C3, as stated, fails at a cut in a lifetime hole: the interval `[0, 4) ∪ [6, 10)` is
well-formed and 5 lies strictly between its start 0 and its end 10, yet the sibling that
`Split` produces at 5 starts at 6, not at 5. -/
theorem split_sibling_start_counterexample :
    (LiveInterval.mk [⟨0, 4⟩, ⟨6, 10⟩] [⟨1, true, none⟩, ⟨7, false, none⟩] .kCoreRegister
        (.register 0) 0 0 none none).WellFormed ∧
    (LiveInterval.mk [⟨0, 4⟩, ⟨6, 10⟩] [⟨1, true, none⟩, ⟨7, false, none⟩] .kCoreRegister
        (.register 0) 0 0 none none).GetStart = some 0 ∧
    (LiveInterval.mk [⟨0, 4⟩, ⟨6, 10⟩] [⟨1, true, none⟩, ⟨7, false, none⟩] .kCoreRegister
        (.register 0) 0 0 none none).GetEnd = some 10 ∧
    0 < 5 ∧ 5 < 10 ∧
    ∃ (table' : List LiveInterval) (second : LiveInterval),
      Split [⟨[⟨0, 4⟩, ⟨6, 10⟩], [⟨1, true, none⟩, ⟨7, false, none⟩], .kCoreRegister,
          .register 0, 0, 0, none, none⟩] 0 5 = some (table', 1) ∧
      table'[1]? = some second ∧
      second.ranges = [⟨6, 10⟩] ∧
      second.GetStart = some 6 ∧
      second.GetStart ≠ some 5 :=
  ⟨⟨by decide, by decide, by decide⟩, rfl, rfl, by decide, by decide,
    _, _, rfl, rfl, rfl, rfl, by decide⟩

end Art
